import Mathlib

/-!
# Verification of the `company-core` helper library

Shallow embedding of the repository's source files and proofs of the
spec's claims about them.

* `src/lib/dynamo.js` — batched DynamoDB writer (`batchPutIntoDynamoDb`),
  query/scan executors (`fetchRecordsByQuery`, `performTableScan`),
  `itemExists`.
* `src/lib/eventStream.js` — SNS publisher (`getAttrType`,
  `parseAttributes`, `publish`).
* `src/lib/helper.js` (unnamed part) — `withEventStream` wrapper.
* `src/lib/util.js` — `getCodeStatus`, `formatHttpResponse`.

Modelling conventions:

* JavaScript values that flow through these functions are embedded as
  `JVal` (strings, numbers, arrays, booleans, objects, `null`,
  `undefined`).  JavaScript numbers are modelled as integers: none of
  the verified properties depends on floating-point behaviour.
* The external stores (DynamoDB, SNS) are modelled as oracle functions
  passed in as parameters; an `Except.error` result of an oracle models
  a rejected SDK promise.
* `DynamoDB.Converter.marshall`/`unmarshall` are a per-record
  encode/decode round-trip performed by the AWS SDK; they are modelled
  as the identity on records, so chunk structure and record identity
  are unaffected.
* In-place mutation of a caller-supplied request object is modelled by
  state passing: the function returns the post-call object alongside
  its result.
-/

namespace CompanyCore

/-- Embedded JavaScript value. -/
inductive JVal where
  | str (s : String)
  | num (n : Int)
  | arr (elems : List JVal)
  | bool (b : Bool)
  | obj (fields : List (String × JVal))
  | null
  | undefined
deriving Repr

/-! ## `src/lib/dynamo.js`: the batch writer -/

/-- Source constant `const batchWriteRecordsLimit = 25;` — safety limit for bulk insertions. -/
def batchWriteRecordsLimit : Nat := 25

/-- The chunking loop of `batchPutIntoDynamoDb`:
`while (preparedRecords.length > 0) { ... preparedRecords.splice(0, batchWriteRecordsLimit) ... }`.
Each iteration removes the first `batchWriteRecordsLimit` records and
emits them as one chunk (one `batchWriteItem` request). -/
def chunkList {α : Type} : List α → List (List α)
  | [] => []
  | a :: rest =>
      ((a :: rest).take batchWriteRecordsLimit)
        :: chunkList ((a :: rest).drop batchWriteRecordsLimit)
termination_by l => l.length
decreasing_by
  simp [List.length_drop, batchWriteRecordsLimit]
  omega

/-- Model of `await Promise.all(bulkRequests)`: issue every chunk request and
join; if any request rejects, the whole gather rejects with that
(first) error. -/
def gatherChunks {α ε : Type} (store : List α → Except ε (List α)) :
    List (List α) → Except ε (List (List α))
  | [] => .ok []
  | c :: cs =>
    match store c, gatherChunks store cs with
    | .error e, _ => .error e
    | .ok _, .error e => .error e
    | .ok w, .ok ws => .ok (w :: ws)

/-- One round of `batchPutIntoDynamoDb`: chunk the records, fire all
chunk requests, and concatenate the per-chunk unprocessed lists
(`result.map(...).reduce((output, cur) => output.concat(cur))`). -/
def roundResult {α ε : Type} (store : List α → Except ε (List α))
    (recs : List α) : Except ε (List α) :=
  (gatherChunks store (chunkList recs)).map List.flatten

/-- Log of one executed round: the record list it started from, the
`backoff` parameter of that invocation, and the sleep it performed at
the end (`none` when the round terminated the call). -/
structure RoundLog (α : Type) where
  records : List α
  backoff : Nat
  sleepMs : Option Nat
deriving Repr

/-- Result of running the retry chain with bounded fuel.  `outOfFuel`
carries the record list and backoff the next (unexecuted) round would
have used; the real code has no such bound and would keep retrying. -/
inductive RunOutcome (ε α : Type) where
  | success
  | failure (e : ε)
  | outOfFuel (pending : List α) (nextBackoff : Nat)
deriving Repr

/-- The retry chain of `batchPutIntoDynamoDb`, unrolled with explicit
fuel.  `round` indexes the rounds so the oracle may answer differently
over time (the real store is stateful).  Per the source: an error
propagates (`throw err`); an empty unprocessed list returns `true`;
otherwise `await sleep(backoff)` then recurse on the unprocessed list
with `backoff + 1000`. -/
def runBatchPut {α ε : Type} (store : Nat → List α → Except ε (List α)) :
    Nat → Nat → List α → Nat → List (RoundLog α) × RunOutcome ε α
  | 0, _, recs, backoff => ([], .outOfFuel recs backoff)
  | fuel + 1, round, recs, backoff =>
    match roundResult (store round) recs with
    | .error e => ([⟨recs, backoff, none⟩], .failure e)
    | .ok [] => ([⟨recs, backoff, none⟩], .success)
    | .ok (u :: us) =>
      let rest := runBatchPut store fuel (round + 1) (u :: us) (backoff + 1000)
      (⟨recs, backoff, some backoff⟩ :: rest.1, rest.2)

/-- Predicate: `x` was part of a chunk of this round whose write the store
confirmed, i.e. the store's reply for that chunk does not list `x` as
unprocessed. -/
def confirmedAt {α ε : Type} (store : List α → Except ε (List α))
    (recs : List α) (x : α) : Prop :=
  ∃ c, c ∈ chunkList recs ∧ x ∈ c ∧
    ∃ w, store c = Except.ok w ∧ x ∉ w

/-- Store oracle that persists everything: every chunk request returns
an empty unprocessed list. -/
def allWrittenStore : Nat → List Nat → Except Unit (List Nat) :=
  fun _ _ => .ok []

/-- Store oracle whose every chunk request rejects with the same
request-level error. -/
def failingStore : Nat → List Nat → Except String (List Nat) :=
  fun _ _ => .error "AccessDeniedException"

/-- Store oracle that reports every submitted record as unprocessed:
each chunk request echoes its chunk back. -/
def echoStore : Nat → List Nat → Except Unit (List Nat) :=
  fun _ c => .ok c

/-! ## JSON serialization (`JSON.stringify`) -/

/-- JavaScript `typeof`. -/
def typeofStr : JVal → String
  | .str _ => "string"
  | .num _ => "number"
  | .arr _ => "object"
  | .bool _ => "boolean"
  | .obj _ => "object"
  | .null => "object"
  | .undefined => "undefined"

def jsonEscapeChar (c : Char) : String :=
  if c = '\"' then "\\\"" else if c = '\\' then "\\\\" else String.singleton c

/-- JSON string escaping, for the quote and backslash characters (the
only ones occurring in the values this library serializes). -/
def jsonEscape (s : String) : String :=
  String.join (s.data.map jsonEscapeChar)

def commaJoin : List String → String
  | [] => ""
  | [s] => s
  | s :: s2 :: rest => s ++ "," ++ commaJoin (s2 :: rest)

def isUndef : JVal → Bool
  | .undefined => true
  | _ => false

mutual

/-- Model of `JSON.stringify` on embedded values: object fields with an
`undefined` value are omitted, `undefined` array elements serialize as
`null` (as in JavaScript).  A top-level `undefined` is rendered as the
text `undefined`; that case is unreachable from the verified claims. -/
def jsonStringify : JVal → String
  | .str s => "\"" ++ jsonEscape s ++ "\""
  | .num n => toString n
  | .bool b => if b then "true" else "false"
  | .null => "null"
  | .undefined => "undefined"
  | .arr vs => "[" ++ commaJoin (jsonArrElems vs) ++ "]"
  | .obj fs => "\x7b" ++ commaJoin (jsonObjFields fs) ++ "\x7d"

def jsonArrElems : List JVal → List String
  | [] => []
  | v :: rest =>
      (if isUndef v then "null" else jsonStringify v) :: jsonArrElems rest

def jsonObjFields : List (String × JVal) → List String
  | [] => []
  | (k, v) :: rest =>
      if isUndef v then jsonObjFields rest
      else ("\"" ++ jsonEscape k ++ "\":" ++ jsonStringify v)
        :: jsonObjFields rest

end

/-! ## `src/lib/eventStream.js`: the notification publisher -/

def isString : JVal → Bool
  | .str _ => true
  | _ => false

def isNumber : JVal → Bool
  | .num _ => true
  | _ => false

def isArray : JVal → Bool
  | .arr _ => true
  | _ => false

/-- Source function `getAttrType(val)`: the SNS `DataType` for an attribute value;
throws (models as `Except.error`) for any other type. -/
def getAttrType (val : JVal) : Except String String :=
  if isString val then .ok "String"
  else if isNumber val then .ok "Number"
  else if isArray val then .ok "String.Array"
  else .error ("Invalid MessageAttribute type: " ++ typeofStr val
    ++ ". Valid types: String, Number, Array.")

/-- One encoded SNS message attribute. -/
structure MsgAttr where
  DataType : String
  StringValue : String
deriving Repr, DecidableEq

/-- Source function `parseAttributes(attributes)`: folds over the keys in order,
throwing at the first invalid value; a `String.Array` value is
`JSON.stringify`-ed, a string or number uses `val.toString()` (the
wildcard branch is unreachable — `getAttrType` admits only strings,
numbers and arrays, and arrays take the `String.Array` branch). -/
def parseAttributes : List (String × JVal) → Except String (List (String × MsgAttr))
  | [] => .ok []
  | (k, v) :: rest =>
    match getAttrType v with
    | .error e => .error e
    | .ok t =>
      match parseAttributes rest with
      | .error e => .error e
      | .ok tail =>
        .ok ((k, ⟨t, if t = "String.Array" then jsonStringify v
          else match v with
            | .str s => s
            | .num n => toString n
            | _ => ""⟩) :: tail)

/-- The spec's wording of the attribute encoding: `DataType` matches
the shape of the value — `String`, `Number`, or `String.Array` for
arrays, which are JSON-serialized to text for the `StringValue`.
Stated from the spec, to be compared with the code's
`parseAttributes`. -/
def specAttrEncode : JVal → MsgAttr
  | .str s => ⟨"String", s⟩
  | .num n => ⟨"Number", toString n⟩
  | v => ⟨"String.Array", jsonStringify v⟩

/-- The `params` object handed to `sns.publish`.  The claims do not
involve the `options` spread, which is omitted. -/
structure PublishParams where
  Message : String
  TopicArn : String
  MessageAttributes : List (String × MsgAttr)
deriving Repr

/-- How the `publish` promise settles: the `catch` block converts any
thrown error into an ordinary return value, so the promise resolves
either with the SNS receipt or with the caught error. -/
inductive PublishResult (ρ : Type) where
  | receipt (r : ρ)
  | caught (e : String)
deriving Repr, DecidableEq

/-- Source function `publish(topicArn, message, attributes, options)` from
`src/lib/eventStream.js`.  `send` models `sns.publish(...)`
(`Except.error` = rejected promise).  The `try` block builds the
params — `parseAttributes` throwing there aborts before any send —
then sends and returns the receipt; the `catch` block logs and
*returns* the caught error, so the result is always `Except.ok`.  The
`Nat` component counts the `sns.publish` calls made. -/
def publish {ρ : Type} (send : PublishParams → Except String ρ)
    (topicArn : String) (message : JVal)
    (attributes : List (String × JVal)) :
    Nat × Except String (PublishResult ρ) :=
  match parseAttributes attributes with
  | .error e => (0, .ok (.caught e))
  | .ok mattrs =>
    match send ⟨jsonStringify message, topicArn, mattrs⟩ with
    | .ok r => (1, .ok (.receipt r))
    | .error e => (1, .ok (.caught e))

/-! ## `src/lib/util.js` -/

/-- Source function `getCodeStatus(code)`. -/
def getCodeStatus (code : Nat) : Option String :=
  if code = 200 then some "OK"
  else if code = 201 then some "Created"
  else if code = 400 then some "Bad Request"
  else if code = 500 then some "Internal Server Error"
  else none

/-- Source function `formatHttpResponse(code, input, result)`: status line plus the
JSON body `{resp, input, result}` (in that field order). -/
def formatHttpResponse (code : Nat) (input result : JVal) : Nat × String :=
  let status := getCodeStatus code
  let resp := "HTTP Resp: " ++ toString code
    ++ (match status with
        | some s => " - " ++ s
        | none => "")
  (code, jsonStringify (.obj
    [("resp", .str resp), ("input", input), ("result", result)]))

/-- Source function `itemExists(obj, param)`: `typeof obj === 'object' && obj !== null
? Object.prototype.hasOwnProperty.call(obj, param) : false`.  An
object's own properties are its field list; `null` and non-objects
yield `false` (an array's own properties are its indices and `length`,
never the names this library tests). -/
def itemExists (obj : JVal) (param : String) : Bool :=
  match obj with
  | .obj fields => (fields.lookup param).isSome
  | _ => false

/-- Source constant `const dynamoDbQuerySafeBatchLimit = 1000;`. -/
def dynamoDbQuerySafeBatchLimit : Int := 1000

/-- The store's reply to a query/scan request; `none` models an absent
field. -/
structure QueryResult where
  Items : Option (List JVal)
  LastEvaluatedKey : Option JVal

/-- The two result shapes of the executors. -/
inductive FetchOutput where
  | plain (records : List JVal)
  | paged (items : List JVal) (exclusiveStartKey : Option JVal)

/-- Source function `fetchRecordsByQuery(queryObject, paginate)`.  `dynamoQuery`
models `dynamodb.query(...).promise()`.  The source mutates
`queryObject` in place (adding `Limit` when absent); the first
component of the result is the caller's object after the call.
`DynamoDB.Converter.unmarshall` is modelled as the identity. -/
def fetchRecordsByQuery (ε : Type)
    (dynamoQuery : List (String × JVal) → Except ε QueryResult)
    (queryObject : List (String × JVal)) (paginate : Bool) :
    List (String × JVal) × Except ε FetchOutput :=
  let q := if itemExists (.obj queryObject) "Limit" then queryObject
    else queryObject ++ [("Limit", .num dynamoDbQuerySafeBatchLimit)]
  match dynamoQuery q with
  | .error err => (q, .error err)
  | .ok qResult =>
    if paginate then
      match qResult.Items with
      | none => (q, .ok (.paged [] none))
      | some items =>
        if items.length < 1 then (q, .ok (.paged [] none))
        else (q, .ok (.paged items qResult.LastEvaluatedKey))
    else
      match qResult.Items with
      | none => (q, .ok (.plain []))
      | some items =>
        if items.length < 1 then (q, .ok (.plain []))
        else (q, .ok (.plain items))

/-- Source function `performTableScan(scanConfig, paginate)`: the source duplicates
the body of `fetchRecordsByQuery` with `dynamodb.scan` in place of
`dynamodb.query`; the embedding mirrors the duplication. -/
def performTableScan (ε : Type)
    (dynamoScan : List (String × JVal) → Except ε QueryResult)
    (scanConfig : List (String × JVal)) (paginate : Bool) :
    List (String × JVal) × Except ε FetchOutput :=
  let q := if itemExists (.obj scanConfig) "Limit" then scanConfig
    else scanConfig ++ [("Limit", .num dynamoDbQuerySafeBatchLimit)]
  match dynamoScan q with
  | .error err => (q, .error err)
  | .ok qResult =>
    if paginate then
      match qResult.Items with
      | none => (q, .ok (.paged [] none))
      | some items =>
        if items.length < 1 then (q, .ok (.paged [] none))
        else (q, .ok (.paged items qResult.LastEvaluatedKey))
    else
      match qResult.Items with
      | none => (q, .ok (.plain []))
      | some items =>
        if items.length < 1 then (q, .ok (.plain []))
        else (q, .ok (.plain items))

/-- A JavaScript exception: a TypeError raised by a property access on
`undefined`/`null`, or any other thrown error identified by a
message. -/
inductive JsErr where
  | typeError
  | thrown (msg : String)
deriving Repr, DecidableEq

/-- Property access `v.k`: throws a TypeError on `undefined` and
`null`; on an object yields the field's value, or `undefined` when the
field is absent; on any other primitive yields `undefined` (none of
the accessed names is a built-in property). -/
def getProp (v : JVal) (k : String) : Except JsErr JVal :=
  match v with
  | .undefined => .error .typeError
  | .null => .error .typeError
  | .obj fields => .ok ((fields.lookup k).getD .undefined)
  | _ => .ok .undefined

/-- One `es.publish` invocation performed by `withEventStream`. -/
structure PublishCall where
  topicArn : String
  message : JVal
  attrs : List (String × JVal)
deriving Repr

/-- Model of `JSON.stringify(err, Object.getOwnPropertyNames(err))`,
as an opaque rendering of the error. -/
def jsErrString : JsErr → String
  | .typeError => "TypeError"
  | .thrown msg => msg

/-- The argument construction of the `es.publish` calls inside
`withEventStream` (the `pass` and `fail` calls share this shape; only
the payload, the fresh event id and the status differ).  The property
accesses appear in the source's evaluation order and may throw. -/
def wesPublishArgs (topicArn : String) (message attributes payload : JVal)
    (newId : String) (status : String) : Except JsErr PublishCall :=
  match getProp message "context" with
  | .error e => .error e
  | .ok ctx =>
  match getProp message "metadata" with
  | .error e => .error e
  | .ok md =>
  match getProp attributes "eventId" with
  | .error e => .error e
  | .ok trig =>
  match getProp attributes "entity" with
  | .error e => .error e
  | .ok ent =>
  match getProp attributes "entityId" with
  | .error e => .error e
  | .ok entId =>
  match getProp attributes "operation" with
  | .error e => .error e
  | .ok op =>
  match getProp message "metadata" with
  | .error e => .error e
  | .ok md2 =>
  match getProp md2 "eventType" with
  | .error e => .error e
  | .ok et =>
  .ok ⟨topicArn,
    .obj [("context", ctx), ("metadata", md), ("payload", payload)],
    [("emitter", .str "tile-event-service"), ("eventId", .str newId),
     ("triggerEventId", trig), ("entity", ent), ("entityId", entId),
     ("operation", op), ("metadata", et), ("status", .str status)]⟩

/-- Source function `withEventStream(snsTopicARN, eventHandler, event)`.  `parsed`
models `es.parse(event)` (which may throw); `eventHandler` is the
caller's handler; `send` models `es.publish`, which never rejects (its
`catch` returns errors as values — see `publish`), so only the calls
performed matter; `newIdPass`/`newIdFail` model the two `uuid()`
draws.  Returns the list of publish calls performed and the settled
result.  When the `try` block throws before the destructuring
assignment completes, `message` and `attributes` are still
`undefined` in the `catch` block. -/
def withEventStream {ρ : Type} (send : PublishCall → ρ)
    (snsTopicARN : String) (newIdPass newIdFail : String)
    (parsed : Except JsErr (JVal × JVal))
    (eventHandler : JVal → JVal → Except JsErr JVal) :
    List PublishCall × Except JsErr ρ :=
  let attempt : Except JsErr PublishCall :=
    match parsed with
    | .error e => .error e
    | .ok ma =>
      match eventHandler ma.1 ma.2 with
      | .error e => .error e
      | .ok payload =>
        wesPublishArgs snsTopicARN ma.1 ma.2 payload newIdPass "pass"
  match attempt with
  | .ok call => ([call], .ok (send call))
  | .error err =>
    let message := match parsed with
      | .ok ma => ma.1
      | .error _ => .undefined
    let attributes := match parsed with
      | .ok ma => ma.2
      | .error _ => .undefined
    match wesPublishArgs snsTopicARN message attributes
        (.obj [("error", .str (jsErrString err))]) newIdFail "fail" with
    | .ok call => ([call], .ok (send call))
    | .error err2 => ([], .error err2)

/-- All the property accesses `withEventStream` performs on the parsed
message and attributes succeed (in particular `message` is neither
`undefined` nor `null`, and `message.metadata` supports a property
access). -/
def envelopeAccessOk (message attributes : JVal) : Bool :=
  (getProp message "context").isOk && (getProp attributes "eventId").isOk &&
  (getProp attributes "entity").isOk && (getProp attributes "entityId").isOk &&
  (getProp attributes "operation").isOk &&
  (match getProp message "metadata" with
   | .ok md => (getProp md "eventType").isOk
   | .error _ => false)

/-! ## Theorems about the batch writer -/

theorem chunkList_nil {α : Type} : chunkList ([] : List α) = [] := by
  simp [chunkList]

theorem chunkList_cons {α : Type} (l : List α) (h : l ≠ []) :
    chunkList l = l.take batchWriteRecordsLimit
      :: chunkList (l.drop batchWriteRecordsLimit) := by
  match l, h with
  | a :: rest, _ => rw [chunkList]

theorem chunkList_drop_len {α : Type} (a : α) (rest : List α) (n : Nat)
    (hn : (a :: rest).length ≤ n + 1) :
    ((a :: rest).drop batchWriteRecordsLimit).length ≤ n := by
  simp only [List.length_drop, List.length_cons, batchWriteRecordsLimit] at hn ⊢
  omega

/-- The chunks are consecutive: concatenating them gives back the input. -/
theorem chunkList_join {α : Type} (l : List α) : (chunkList l).flatten = l := by
  have H : ∀ (n : Nat) (l : List α), l.length ≤ n → (chunkList l).flatten = l := by
    intro n
    induction n with
    | zero =>
      intro l hl
      match l, hl with
      | [], _ => simp [chunkList_nil]
    | succ n ih =>
      intro l hl
      match l with
      | [] => simp [chunkList_nil]
      | a :: rest =>
        rw [chunkList_cons _ (by simp)]
        rw [List.flatten_cons, ih _ (chunkList_drop_len a rest n hl)]
        exact List.take_append_drop _ _
  exact H l.length l (Nat.le_refl _)

/-- Every chunk has at most `batchWriteRecordsLimit` records. -/
theorem chunkList_sizes {α : Type} (l : List α) :
    ∀ c ∈ chunkList l, c.length ≤ batchWriteRecordsLimit := by
  have H : ∀ (n : Nat) (l : List α), l.length ≤ n →
      ∀ c ∈ chunkList l, c.length ≤ batchWriteRecordsLimit := by
    intro n
    induction n with
    | zero =>
      intro l hl
      match l, hl with
      | [], _ => simp [chunkList_nil]
    | succ n ih =>
      intro l hl
      match l with
      | [] => simp [chunkList_nil]
      | a :: rest =>
        rw [chunkList_cons _ (by simp)]
        intro c hc
        rcases List.mem_cons.mp hc with h | h
        · subst h; exact List.length_take_le _ _
        · exact ih _ (chunkList_drop_len a rest n hl) c h
  exact H l.length l (Nat.le_refl _)

/-- The number of chunks (= number of `batchWriteItem` requests issued)
is `⌈N / B⌉`, written in `Nat` arithmetic as `(N + B - 1) / B`. -/
theorem chunkList_count {α : Type} (l : List α) :
    (chunkList l).length
      = (l.length + (batchWriteRecordsLimit - 1)) / batchWriteRecordsLimit := by
  have H : ∀ (n : Nat) (l : List α), l.length ≤ n →
      (chunkList l).length
        = (l.length + (batchWriteRecordsLimit - 1)) / batchWriteRecordsLimit := by
    intro n
    induction n with
    | zero =>
      intro l hl
      match l, hl with
      | [], _ => simp [chunkList_nil, batchWriteRecordsLimit]
    | succ n ih =>
      intro l hl
      match l with
      | [] => simp [chunkList_nil, batchWriteRecordsLimit]
      | a :: rest =>
        rw [chunkList_cons _ (by simp)]
        rw [List.length_cons, ih _ (chunkList_drop_len a rest n hl)]
        simp only [List.length_drop, List.length_cons, batchWriteRecordsLimit]
        omega
  exact H l.length l (Nat.le_refl _)

/-- The last chunk holds `N % B` records, or `B` when `B` divides `N`. -/
theorem chunkList_last {α : Type} (l : List α) (h : l ≠ []) :
    ∃ c, (chunkList l).getLast? = some c ∧
      c.length = (if l.length % batchWriteRecordsLimit = 0
        then batchWriteRecordsLimit else l.length % batchWriteRecordsLimit) := by
  have H : ∀ (n : Nat) (l : List α), l.length ≤ n → l ≠ [] →
      ∃ c, (chunkList l).getLast? = some c ∧
        c.length = (if l.length % batchWriteRecordsLimit = 0
          then batchWriteRecordsLimit else l.length % batchWriteRecordsLimit) := by
    intro n
    induction n with
    | zero =>
      intro l hl hne
      match l, hl, hne with
      | [], _, hne => exact absurd rfl hne
    | succ n ih =>
      intro l hl hne
      match l with
      | a :: rest =>
        rw [chunkList_cons _ (by simp)]
        by_cases hshort : (a :: rest).length ≤ batchWriteRecordsLimit
        · have hdrop : (a :: rest).drop batchWriteRecordsLimit = [] :=
            List.drop_eq_nil_of_le hshort
          refine ⟨(a :: rest).take batchWriteRecordsLimit, ?_, ?_⟩
          · rw [hdrop, chunkList_nil]
            rfl
          · simp only [List.length_take, List.length_cons,
              batchWriteRecordsLimit] at hshort ⊢
            split <;> omega
        · have hne2 : (a :: rest).drop batchWriteRecordsLimit ≠ [] := by
            intro hcon
            have hlen := congrArg List.length hcon
            simp only [List.length_drop, List.length_cons, List.length_nil] at hlen
            simp only [List.length_cons, batchWriteRecordsLimit] at hshort hlen
            omega
          obtain ⟨c, hc, hclen⟩ := ih _ (chunkList_drop_len a rest n hl) hne2
          have hchne : chunkList ((a :: rest).drop batchWriteRecordsLimit) ≠ [] := by
            intro hcon
            rw [hcon] at hc
            simp at hc
          refine ⟨c, ?_, ?_⟩
          · obtain ⟨c2, t2, ht⟩ := List.exists_cons_of_ne_nil hchne
            rw [ht, List.getLast?_cons_cons, ← ht]
            exact hc
          · rw [hclen]
            have hmod : ((a :: rest).drop batchWriteRecordsLimit).length
                  % batchWriteRecordsLimit
                = (a :: rest).length % batchWriteRecordsLimit := by
              simp only [List.length_drop, List.length_cons,
                batchWriteRecordsLimit] at hshort ⊢
              omega
            rw [hmod]
  exact H l.length l (Nat.le_refl _) h

theorem gatherChunks_ok_mem {α ε : Type} (store : List α → Except ε (List α)) :
    ∀ (cs : List (List α)) (ws : List (List α)),
      gatherChunks store cs = .ok ws →
      ∀ c ∈ cs, ∃ w, store c = .ok w ∧ w ∈ ws := by
  intro cs
  induction cs with
  | nil => intro ws _ c hc; exact absurd hc (List.not_mem_nil c)
  | cons c0 cs ih =>
    intro ws hok c hc
    rw [gatherChunks] at hok
    cases h0 : store c0 with
    | error e => rw [h0] at hok; exact absurd hok (by simp)
    | ok w0 =>
      rw [h0] at hok
      cases hrest : gatherChunks store cs with
      | error e => rw [hrest] at hok; exact absurd hok (by simp)
      | ok ws0 =>
        rw [hrest] at hok
        simp only at hok
        cases hok
        rcases List.mem_cons.mp hc with h | h
        · exact ⟨w0, h ▸ h0, List.mem_cons_self _ _⟩
        · obtain ⟨w, hw, hmem⟩ := ih ws0 hrest c h
          exact ⟨w, hw, List.mem_cons_of_mem _ hmem⟩

/-- Dichotomy for one successful round: every submitted record is
either confirmed by its chunk's reply or appears in the concatenated
unprocessed list. -/
theorem roundResult_mem_cases {α ε : Type}
    (store : List α → Except ε (List α)) (recs u : List α)
    (h : roundResult store recs = .ok u) {x : α} (hx : x ∈ recs) :
    confirmedAt store recs x ∨ x ∈ u := by
  rw [roundResult] at h
  cases hg : gatherChunks store (chunkList recs) with
  | error e => rw [hg] at h; exact absurd h (by simp [Except.map])
  | ok ws =>
    rw [hg] at h
    simp only [Except.map] at h
    cases h
    have hx2 : x ∈ (chunkList recs).flatten := by rw [chunkList_join]; exact hx
    obtain ⟨c, hc, hxc⟩ := List.mem_flatten.mp hx2
    obtain ⟨w, hw, hwmem⟩ := gatherChunks_ok_mem store _ ws hg c hc
    by_cases hxw : x ∈ w
    · exact Or.inr (List.mem_flatten.mpr ⟨w, hwmem, hxw⟩)
    · exact Or.inl ⟨c, hc, hxc, w, hw, hxw⟩

/--
C1: a non-empty record list of `N` records is split by
`batchPutIntoDynamoDb` into consecutive chunks (their concatenation is
the input), each of at most `batchWriteRecordsLimit = 25` records; the
number of chunk write requests equals `⌈N / 25⌉ = (N + 24) / 25`, and
the last chunk has `N % 25` records, or `25` when `25 ∣ N`.
-/
theorem batchPut_chunking_spec {α : Type} (recs : List α) (h : recs ≠ []) :
    batchWriteRecordsLimit = 25 ∧
    (chunkList recs).flatten = recs ∧
    (∀ c ∈ chunkList recs, c.length ≤ batchWriteRecordsLimit) ∧
    (chunkList recs).length
      = (recs.length + (batchWriteRecordsLimit - 1)) / batchWriteRecordsLimit ∧
    ∃ c, (chunkList recs).getLast? = some c ∧
      c.length = (if recs.length % batchWriteRecordsLimit = 0
        then batchWriteRecordsLimit else recs.length % batchWriteRecordsLimit) :=
  ⟨rfl, chunkList_join recs, chunkList_sizes recs, chunkList_count recs,
    chunkList_last recs h⟩

theorem batchPut_chunking_spec_witness :
    (([3, 1, 4] : List Nat) ≠ []) ∧
    (batchWriteRecordsLimit = 25 ∧
    (chunkList [3, 1, 4]).flatten = [3, 1, 4] ∧
    (∀ c ∈ chunkList [3, 1, 4], c.length ≤ batchWriteRecordsLimit) ∧
    (chunkList [3, 1, 4]).length
      = (([3, 1, 4] : List Nat).length + (batchWriteRecordsLimit - 1))
        / batchWriteRecordsLimit ∧
    ∃ c, (chunkList [3, 1, 4]).getLast? = some c ∧
      c.length = (if ([3, 1, 4] : List Nat).length % batchWriteRecordsLimit = 0
        then batchWriteRecordsLimit
        else ([3, 1, 4] : List Nat).length % batchWriteRecordsLimit)) :=
  ⟨by simp, batchPut_chunking_spec [3, 1, 4] (by simp)⟩

theorem runBatchPut_zero {α ε : Type} (store : Nat → List α → Except ε (List α))
    (round : Nat) (recs : List α) (backoff : Nat) :
    runBatchPut store 0 round recs backoff = ([], .outOfFuel recs backoff) := rfl

theorem runBatchPut_succ_err {α ε : Type}
    (store : Nat → List α → Except ε (List α)) (fuel round : Nat)
    (recs : List α) (backoff : Nat) (e : ε)
    (h : roundResult (store round) recs = .error e) :
    runBatchPut store (fuel + 1) round recs backoff
      = ([⟨recs, backoff, none⟩], .failure e) := by
  rw [runBatchPut, h]

theorem runBatchPut_succ_done {α ε : Type}
    (store : Nat → List α → Except ε (List α)) (fuel round : Nat)
    (recs : List α) (backoff : Nat)
    (h : roundResult (store round) recs = .ok []) :
    runBatchPut store (fuel + 1) round recs backoff
      = ([⟨recs, backoff, none⟩], .success) := by
  rw [runBatchPut, h]

theorem runBatchPut_succ_retry {α ε : Type}
    (store : Nat → List α → Except ε (List α)) (fuel round : Nat)
    (recs : List α) (backoff : Nat) (u0 : α) (us : List α)
    (h : roundResult (store round) recs = .ok (u0 :: us)) :
    runBatchPut store (fuel + 1) round recs backoff
      = (⟨recs, backoff, some backoff⟩
            :: (runBatchPut store fuel (round + 1) (u0 :: us) (backoff + 1000)).1,
         (runBatchPut store fuel (round + 1) (u0 :: us) (backoff + 1000)).2) := by
  rw [runBatchPut, h]

theorem runBatchPut_head {α ε : Type} (store : Nat → List α → Except ε (List α))
    (fuel round : Nat) (recs : List α) (backoff : Nat) (d : RoundLog α)
    (h : 0 < fuel) :
    0 < (runBatchPut store fuel round recs backoff).1.length ∧
    ((runBatchPut store fuel round recs backoff).1.getD 0 d).records = recs ∧
    ((runBatchPut store fuel round recs backoff).1.getD 0 d).backoff = backoff := by
  match fuel, h with
  | f + 1, _ =>
    rcases hr : roundResult (store round) recs with e | u
    · rw [runBatchPut_succ_err store f round recs backoff e hr]
      simp
    · rcases u with _ | ⟨u0, us⟩
      · rw [runBatchPut_succ_done store f round recs backoff hr]
        simp
      · rw [runBatchPut_succ_retry store f round recs backoff u0 us hr]
        simp

theorem runBatchPut_backoff_formula {α ε : Type}
    (store : Nat → List α → Except ε (List α)) :
    ∀ (fuel round : Nat) (recs : List α) (backoff i : Nat) (d : RoundLog α),
      i < (runBatchPut store fuel round recs backoff).1.length →
      ((runBatchPut store fuel round recs backoff).1.getD i d).backoff
        = backoff + 1000 * i := by
  intro fuel
  induction fuel with
  | zero => intro round recs backoff i d hi; simp [runBatchPut_zero] at hi
  | succ f ih =>
    intro round recs backoff i d hi
    rcases hr : roundResult (store round) recs with e | u
    · rw [runBatchPut_succ_err store f round recs backoff e hr] at hi ⊢
      simp only [List.length_cons, List.length_nil] at hi
      match i, hi with
      | 0, _ => simp
    · rcases u with _ | ⟨u0, us⟩
      · rw [runBatchPut_succ_done store f round recs backoff hr] at hi ⊢
        simp only [List.length_cons, List.length_nil] at hi
        match i, hi with
        | 0, _ => simp
      · rw [runBatchPut_succ_retry store f round recs backoff u0 us hr] at hi ⊢
        simp only [List.length_cons] at hi
        match i with
        | 0 => simp
        | j + 1 =>
          simp only [List.getD_cons_succ]
          rw [ih (round + 1) (u0 :: us) (backoff + 1000) j d (by omega)]
          ring

theorem runBatchPut_always_unprocessed {α ε : Type}
    (store : Nat → List α → Except ε (List α))
    (hstore : ∀ round recs, recs ≠ [] →
      ∃ u, roundResult (store round) recs = .ok u ∧ u ≠ []) :
    ∀ (fuel round : Nat) (recs : List α) (backoff : Nat), recs ≠ [] →
      (runBatchPut store fuel round recs backoff).1.length = fuel ∧
      ∃ p nb, (runBatchPut store fuel round recs backoff).2
        = RunOutcome.outOfFuel p nb := by
  intro fuel
  induction fuel with
  | zero => intro round recs backoff _; exact ⟨rfl, recs, backoff, rfl⟩
  | succ f ih =>
    intro round recs backoff hne
    obtain ⟨u, hu, hune⟩ := hstore round recs hne
    match u, hune with
    | u0 :: us, _ =>
      rw [runBatchPut_succ_retry store f round recs backoff u0 us hu]
      obtain ⟨hlen, p, nb, hout⟩ := ih (round + 1) (u0 :: us) (backoff + 1000)
        (by simp)
      exact ⟨by simp [hlen], p, nb, hout⟩

/--
C2: in any retry chain produced by `batchPutIntoDynamoDb`, a record of
a round whose chunk writes all completed without a request-level error
is either part of a chunk whose write the store confirmed (the store's
reply does not list it as unprocessed), or is contained in the record
list of the following retry round; in the fuelled model, when the fuel
ran out at that point the record is among the pending records that the
next (unexecuted) round would have received.  No record is dropped.
-/
theorem batchPut_no_record_dropped {α ε : Type}
    (store : Nat → List α → Except ε (List α)) :
    ∀ (fuel round0 : Nat) (recs : List α) (backoff i : Nat) (d : RoundLog α)
      (u : List α) (x : α),
      i < (runBatchPut store fuel round0 recs backoff).1.length →
      roundResult (store (round0 + i))
        (((runBatchPut store fuel round0 recs backoff).1.getD i d).records)
        = .ok u →
      x ∈ ((runBatchPut store fuel round0 recs backoff).1.getD i d).records →
      confirmedAt (store (round0 + i))
          (((runBatchPut store fuel round0 recs backoff).1.getD i d).records) x
        ∨ (i + 1 < (runBatchPut store fuel round0 recs backoff).1.length ∧
            x ∈ ((runBatchPut store fuel round0 recs backoff).1.getD (i + 1) d).records)
        ∨ (i + 1 = (runBatchPut store fuel round0 recs backoff).1.length ∧
            ∃ nb, (runBatchPut store fuel round0 recs backoff).2
              = RunOutcome.outOfFuel u nb ∧ x ∈ u) := by
  intro fuel
  induction fuel with
  | zero =>
    intro round0 recs backoff i d u x hi
    simp [runBatchPut_zero] at hi
  | succ f ih =>
    intro round0 recs backoff i d u x hi hround hx
    rcases hr : roundResult (store round0) recs with e | w
    · rw [runBatchPut_succ_err store f round0 recs backoff e hr] at hi hround hx ⊢
      simp only [List.length_cons, List.length_nil] at hi
      match i, hi with
      | 0, _ =>
        simp only [List.getD_cons_zero, Nat.add_zero] at hround hx ⊢
        rw [hround] at hr
        exact absurd hr (by simp)
    · rcases w with _ | ⟨w0, ws⟩
      · -- round succeeded with an empty unprocessed list: one entry, success
        rw [runBatchPut_succ_done store f round0 recs backoff hr] at hi hround hx ⊢
        simp only [List.length_cons, List.length_nil] at hi
        match i, hi with
        | 0, _ =>
          simp only [List.getD_cons_zero, Nat.add_zero] at hround hx ⊢
          have hu : u = [] := by
            rw [hround] at hr
            exact Except.ok.inj hr
          subst hu
          rcases roundResult_mem_cases (store round0) recs [] hround hx with hc | hm
          · exact Or.inl hc
          · exact absurd hm (List.not_mem_nil x)
      · -- round succeeded with a non-empty unprocessed list: retry follows
        rw [runBatchPut_succ_retry store f round0 recs backoff w0 ws hr]
          at hi hround hx ⊢
        simp only [List.length_cons] at hi
        match i with
        | 0 =>
          simp only [List.getD_cons_zero, Nat.add_zero] at hround hx ⊢
          have hu : u = w0 :: ws := by
            rw [hround] at hr
            exact Except.ok.inj hr
          subst hu
          rcases roundResult_mem_cases (store round0) recs (w0 :: ws) hround hx
            with hc | hm
          · exact Or.inl hc
          · match hf : f with
            | 0 =>
              refine Or.inr (Or.inr ⟨?_, backoff + 1000, ?_, hm⟩)
              · simp [runBatchPut_zero]
              · simp [runBatchPut_zero]
            | g + 1 =>
              refine Or.inr (Or.inl ⟨?_, ?_⟩)
              · have := (runBatchPut_head store (g + 1) (round0 + 1) (w0 :: ws)
                  (backoff + 1000) d (by omega)).1
                simp only [List.length_cons]
                omega
              · have := (runBatchPut_head store (g + 1) (round0 + 1) (w0 :: ws)
                  (backoff + 1000) d (by omega)).2.1
                simp only [List.getD_cons_succ]
                rw [this]
                exact hm
        | j + 1 =>
          simp only [List.getD_cons_succ] at hround hx ⊢
          have harith : round0 + (j + 1) = (round0 + 1) + j := by omega
          rw [harith] at hround ⊢
          have := ih (round0 + 1) (w0 :: ws) (backoff + 1000) j d u x
            (by omega) hround hx
          rcases this with hc | ⟨hlt, hmem⟩ | ⟨heq, nb, hout, hmem⟩
          · exact Or.inl hc
          · exact Or.inr (Or.inl ⟨by simp only [List.length_cons]; omega, hmem⟩)
          · exact Or.inr (Or.inr ⟨by simp only [List.length_cons]; omega,
              nb, hout, hmem⟩)

theorem gatherChunks_empty {α ε : Type} (store : List α → Except ε (List α)) :
    ∀ cs : List (List α), (∀ c ∈ cs, store c = .ok []) →
      ∃ ws, gatherChunks store cs = .ok ws ∧ ws.flatten = [] := by
  intro cs
  induction cs with
  | nil => exact fun _ => ⟨[], rfl, rfl⟩
  | cons c0 cs ih =>
    intro h
    obtain ⟨ws, hws, hfl⟩ := ih (fun c hc => h c (List.mem_cons_of_mem _ hc))
    refine ⟨[] :: ws, ?_, by simp [hfl]⟩
    rw [gatherChunks, h c0 (List.mem_cons_self _ _), hws]

theorem gatherChunks_error {α ε : Type} (store : List α → Except ε (List α)) :
    ∀ cs : List (List α), (∃ c ∈ cs, ∃ e, store c = .error e) →
      ∃ e2, gatherChunks store cs = .error e2 ∧
        ∃ c ∈ cs, store c = .error e2 := by
  intro cs
  induction cs with
  | nil => rintro ⟨c, hc, _⟩; exact absurd hc (List.not_mem_nil c)
  | cons c0 cs ih =>
    rintro ⟨c, hc, e, he⟩
    cases h0 : store c0 with
    | error e0 =>
      exact ⟨e0, by rw [gatherChunks, h0], c0, List.mem_cons_self _ _, h0⟩
    | ok w0 =>
      have hcs : ∃ c ∈ cs, ∃ e, store c = .error e := by
        rcases List.mem_cons.mp hc with h | h
        · rw [h, h0] at he; exact absurd he (by simp)
        · exact ⟨c, h, e, he⟩
      obtain ⟨e2, he2, c2, hc2, hstc⟩ := ih hcs
      refine ⟨e2, ?_, c2, List.mem_cons_of_mem _ hc2, hstc⟩
      rw [gatherChunks, h0, he2]

theorem roundResult_all_written {α ε : Type}
    (store : List α → Except ε (List α)) (recs : List α)
    (h : ∀ c ∈ chunkList recs, store c = .ok []) :
    roundResult store recs = .ok [] := by
  obtain ⟨ws, hws, hfl⟩ := gatherChunks_empty store (chunkList recs) h
  rw [roundResult, hws]
  simp [Except.map, hfl]

/--
C4: when every chunk response of the first round reports zero
unprocessed items, `batchPutIntoDynamoDb` returns success after
exactly one round: its trace is a single round log with no sleep, and
no further chunk requests are issued however much fuel remains.
The `recs ≠ []` hypothesis matches the spec's precondition that the
record list is non-empty (on `[]` the JavaScript code would throw
`Reduce of empty array with no initial value` instead of succeeding).
-/
theorem batchPut_one_round_success {α ε : Type}
    (store : Nat → List α → Except ε (List α)) (recs : List α)
    (backoff fuel : Nat) (_hne : recs ≠ [])
    (h : ∀ c ∈ chunkList recs, store 0 c = .ok []) :
    runBatchPut store (fuel + 1) 0 recs backoff
      = ([⟨recs, backoff, none⟩], .success) :=
  runBatchPut_succ_done store fuel 0 recs backoff
    (roundResult_all_written (store 0) recs h)

theorem batchPut_one_round_success_witness :
    (([4, 9] : List Nat) ≠ []) ∧
    (∀ c ∈ chunkList [4, 9], allWrittenStore 0 c = .ok []) ∧
    runBatchPut allWrittenStore 6 0 [4, 9] 1000
      = ([⟨[4, 9], 1000, none⟩], .success) :=
  ⟨by simp, fun c _ => rfl,
    batchPut_one_round_success allWrittenStore [4, 9] 1000 5 (by simp)
      (fun c _ => rfl)⟩

/--
C5: if any chunk write request of the first round fails with a
request-level error (a rejected promise rather than an "unprocessed"
report), the whole operation aborts after that round: the outcome is
`failure e2` where `e2` is the error of a failing chunk request,
propagated unchanged, and no sleep and no retry round occur, however
much fuel remains.
-/
theorem batchPut_error_aborts {α ε : Type}
    (store : Nat → List α → Except ε (List α)) (recs : List α)
    (backoff fuel : Nat)
    (h : ∃ c ∈ chunkList recs, ∃ e, store 0 c = .error e) :
    ∃ e2, (∃ c ∈ chunkList recs, store 0 c = .error e2) ∧
      runBatchPut store (fuel + 1) 0 recs backoff
        = ([⟨recs, backoff, none⟩], .failure e2) := by
  obtain ⟨e2, he2, c2, hc2, hstc⟩ :=
    gatherChunks_error (store 0) (chunkList recs) h
  refine ⟨e2, ⟨c2, hc2, hstc⟩, ?_⟩
  exact runBatchPut_succ_err store fuel 0 recs backoff e2
    (by rw [roundResult, he2]; rfl)

theorem batchPut_error_aborts_witness :
    (∃ c ∈ chunkList [5], ∃ e, failingStore 0 c = .error e) ∧
    ∃ e2, (∃ c ∈ chunkList [5], failingStore 0 c = .error e2) ∧
      runBatchPut failingStore 4 0 [5] 1000
        = ([⟨[5], 1000, none⟩], .failure e2) :=
  ⟨⟨[5], by simp [chunkList, batchWriteRecordsLimit],
      "AccessDeniedException", rfl⟩,
    batchPut_error_aborts failingStore [5] 1000 3
      ⟨[5], by simp [chunkList, batchWriteRecordsLimit],
        "AccessDeniedException", rfl⟩⟩

/--
C3: when a round's concatenated unprocessed list is non-empty, the
call records a sleep of `backoff` milliseconds and re-runs the whole
procedure on exactly the unprocessed list with `backoff + 1000` as the
new delay; the backoff of the `i`-th round is `backoff + 1000·i`, so
backoffs are monotonically non-decreasing along a retry chain; and
there is no retry-count ceiling: against a store that always reports a
non-empty unprocessed remainder, every fuel bound is exhausted with
the writer still retrying (the trace has exactly `fuel` rounds and the
outcome is `outOfFuel`, never success or failure).
-/
theorem batchPut_retry_backoff_spec {α ε : Type}
    (store : Nat → List α → Except ε (List α)) :
    (∀ (fuel round : Nat) (recs : List α) (backoff : Nat) (u0 : α) (us : List α),
        roundResult (store round) recs = .ok (u0 :: us) →
        runBatchPut store (fuel + 1) round recs backoff
          = (⟨recs, backoff, some backoff⟩
                :: (runBatchPut store fuel (round + 1) (u0 :: us) (backoff + 1000)).1,
             (runBatchPut store fuel (round + 1) (u0 :: us) (backoff + 1000)).2)) ∧
    (∀ (fuel round : Nat) (recs : List α) (backoff i : Nat) (d : RoundLog α),
        i < (runBatchPut store fuel round recs backoff).1.length →
        ((runBatchPut store fuel round recs backoff).1.getD i d).backoff
          = backoff + 1000 * i) ∧
    (∀ (fuel round : Nat) (recs : List α) (backoff i j : Nat) (d : RoundLog α),
        i ≤ j → j < (runBatchPut store fuel round recs backoff).1.length →
        ((runBatchPut store fuel round recs backoff).1.getD i d).backoff
          ≤ ((runBatchPut store fuel round recs backoff).1.getD j d).backoff) ∧
    ((∀ (round : Nat) (recs : List α), recs ≠ [] →
        ∃ u, roundResult (store round) recs = .ok u ∧ u ≠ []) →
      ∀ (fuel round : Nat) (recs : List α) (backoff : Nat), recs ≠ [] →
        (runBatchPut store fuel round recs backoff).1.length = fuel ∧
        ∃ p nb, (runBatchPut store fuel round recs backoff).2
          = RunOutcome.outOfFuel p nb) := by
  refine ⟨?_, runBatchPut_backoff_formula store, ?_,
    fun hstore => runBatchPut_always_unprocessed store hstore⟩
  · intro fuel round recs backoff u0 us h
    exact runBatchPut_succ_retry store fuel round recs backoff u0 us h
  · intro fuel round recs backoff i j d hij hj
    rw [runBatchPut_backoff_formula store fuel round recs backoff i d (by omega),
      runBatchPut_backoff_formula store fuel round recs backoff j d hj]
    omega

theorem gatherChunks_echo {ε : Type} :
    ∀ cs : List (List Nat),
      gatherChunks (fun c => (Except.ok c : Except ε (List Nat))) cs = .ok cs := by
  intro cs
  induction cs with
  | nil => rfl
  | cons c0 cs ih => rw [gatherChunks, ih]

theorem roundResult_echo (round : Nat) (recs : List Nat) :
    roundResult (echoStore round) recs = .ok recs := by
  rw [roundResult]
  show (gatherChunks (fun c => (Except.ok c : Except Unit (List Nat)))
    (chunkList recs)).map List.flatten = _
  rw [gatherChunks_echo]
  simp [Except.map, chunkList_join]

theorem batchPut_retry_backoff_spec_witness :
    (roundResult (echoStore 0) [7] = .ok [7]) ∧
    runBatchPut echoStore 1 0 [7] 1000
      = ([⟨[7], 1000, some 1000⟩], RunOutcome.outOfFuel [7] 2000) ∧
    (runBatchPut echoStore 3 0 [7] 1000).1.length = 3 := by
  have h := @batchPut_retry_backoff_spec Nat Unit echoStore
  refine ⟨roundResult_echo 0 [7], ?_, ?_⟩
  · rw [h.1 0 0 [7] 1000 7 [] (roundResult_echo 0 [7])]
    rw [runBatchPut_zero]
  · exact (h.2.2.2
      (fun round recs hne => ⟨recs, roundResult_echo round recs, hne⟩)
      3 0 [7] 1000 (by simp)).1

theorem batchPut_no_record_dropped_witness :
    (0 < (runBatchPut echoStore 2 0 [7] 1000).1.length) ∧
    (roundResult (echoStore (0 + 0))
        (((runBatchPut echoStore 2 0 [7] 1000).1.getD 0 ⟨[], 0, none⟩).records)
      = .ok [7]) ∧
    (7 ∈ ((runBatchPut echoStore 2 0 [7] 1000).1.getD 0 ⟨[], 0, none⟩).records) ∧
    (confirmedAt (echoStore (0 + 0))
        (((runBatchPut echoStore 2 0 [7] 1000).1.getD 0 ⟨[], 0, none⟩).records) 7
      ∨ (0 + 1 < (runBatchPut echoStore 2 0 [7] 1000).1.length ∧
          7 ∈ ((runBatchPut echoStore 2 0 [7] 1000).1.getD (0 + 1) ⟨[], 0, none⟩).records)
      ∨ (0 + 1 = (runBatchPut echoStore 2 0 [7] 1000).1.length ∧
          ∃ nb, (runBatchPut echoStore 2 0 [7] 1000).2
            = RunOutcome.outOfFuel [7] nb ∧ 7 ∈ [7])) := by
  have hrun : runBatchPut echoStore 2 0 [7] 1000
      = (⟨[7], 1000, some 1000⟩
            :: (runBatchPut echoStore 1 1 [7] 2000).1,
         (runBatchPut echoStore 1 1 [7] 2000).2) :=
    runBatchPut_succ_retry echoStore 1 0 [7] 1000 7 []
      (roundResult_echo 0 [7])
  have hrun1 : runBatchPut echoStore 1 1 [7] 2000
      = (⟨[7], 2000, some 2000⟩
            :: (runBatchPut echoStore 0 2 [7] 3000).1,
         (runBatchPut echoStore 0 2 [7] 3000).2) :=
    runBatchPut_succ_retry echoStore 0 1 [7] 2000 7 []
      (roundResult_echo 1 [7])
  have h1 : 0 < (runBatchPut echoStore 2 0 [7] 1000).1.length := by
    rw [hrun]; simp
  have h2 : roundResult (echoStore (0 + 0))
      (((runBatchPut echoStore 2 0 [7] 1000).1.getD 0 ⟨[], 0, none⟩).records)
      = .ok [7] := by
    rw [hrun]; simpa using roundResult_echo 0 [7]
  have h3 : 7 ∈ ((runBatchPut echoStore 2 0 [7] 1000).1.getD 0
      ⟨[], 0, none⟩).records := by
    rw [hrun]; simp
  exact ⟨h1, h2, h3,
    batchPut_no_record_dropped echoStore 2 0 [7] 1000 0 ⟨[], 0, none⟩ [7] 7
      h1 h2 h3⟩

/-! ## Theorems about the notification publisher -/

theorem except_isOk_exists {ε β : Type} (x : Except ε β)
    (h : x.isOk = true) : ∃ b, x = .ok b := by
  cases x with
  | error e => simp [Except.isOk, Except.toBool] at h
  | ok b => exact ⟨b, rfl⟩

theorem getAttrType_invalid (v : JVal) (h : (getAttrType v).isOk = false) :
    getAttrType v = .error ("Invalid MessageAttribute type: "
      ++ typeofStr v ++ ". Valid types: String, Number, Array.") := by
  cases v <;>
    simp [getAttrType, isString, isNumber, isArray, Except.isOk,
      Except.toBool] at h ⊢

theorem parseAttributes_error_of_invalid :
    ∀ attrs : List (String × JVal),
      (∃ kv ∈ attrs, (getAttrType kv.2).isOk = false) →
      ∃ v, (∃ k, (k, v) ∈ attrs) ∧ (getAttrType v).isOk = false ∧
        parseAttributes attrs = .error ("Invalid MessageAttribute type: "
          ++ typeofStr v ++ ". Valid types: String, Number, Array.") := by
  intro attrs
  induction attrs with
  | nil => rintro ⟨kv, hkv, _⟩; exact absurd hkv (List.not_mem_nil kv)
  | cons kv0 rest ih =>
    rintro ⟨kv, hkv, hbad⟩
    obtain ⟨k0, v0⟩ := kv0
    cases h0 : getAttrType v0 with
    | error e =>
      have hinv : (getAttrType v0).isOk = false := by
        rw [h0]; rfl
      have hshape := getAttrType_invalid v0 hinv
      refine ⟨v0, ⟨k0, List.mem_cons_self _ _⟩, hinv, ?_⟩
      simp only [parseAttributes]
      rw [hshape]
    | ok t0 =>
      have hrest : ∃ kv ∈ rest, (getAttrType kv.2).isOk = false := by
        rcases List.mem_cons.mp hkv with h | h
        · subst h; rw [h0] at hbad; simp [Except.isOk, Except.toBool] at hbad
        · exact ⟨kv, h, hbad⟩
      obtain ⟨v, ⟨k, hk⟩, hv, herr⟩ := ih hrest
      refine ⟨v, ⟨k, List.mem_cons_of_mem _ hk⟩, hv, ?_⟩
      simp only [parseAttributes]
      rw [h0, herr]

theorem parseAttributes_ok_of_valid :
    ∀ attrs : List (String × JVal),
      (∀ kv ∈ attrs, (getAttrType kv.2).isOk = true) →
      parseAttributes attrs
        = .ok (attrs.map (fun kv => (kv.1, specAttrEncode kv.2))) := by
  intro attrs
  induction attrs with
  | nil => intro _; rfl
  | cons kv0 rest ih =>
    intro h
    obtain ⟨k0, v0⟩ := kv0
    have h0 := h (k0, v0) (List.mem_cons_self _ _)
    have hrest := ih (fun kv hkv => h kv (List.mem_cons_of_mem _ hkv))
    cases v0 <;>
      simp [getAttrType, isString, isNumber, isArray,
        Except.isOk, Except.toBool] at h0 <;>
      simp [parseAttributes, getAttrType, isString, isNumber, isArray,
        hrest, specAttrEncode, List.map]

/--
C6 counterexample: `eventStream.publish` called with a boolean-valued
attribute does not raise: the invalid-attribute error thrown by
`getAttrType` is caught by `publish`'s `catch` block and returned as
the resolved value (`Except.ok (caught …)`, not `Except.error …`), so
the claim's "the call raises an 'invalid attribute type' error" fails
at this input; no send is performed.
-/
theorem publish_invalid_attr_resolves :
    (publish (fun _ => Except.ok 0) "topic" JVal.null
        [("flag", JVal.bool true)]).1 = 0 ∧
    (publish (fun _ => Except.ok 0) "topic" JVal.null
        [("flag", JVal.bool true)]).2
      = Except.ok (PublishResult.caught
          "Invalid MessageAttribute type: boolean. Valid types: String, Number, Array.") :=
  ⟨rfl, rfl⟩

/--
C6 (amended): for every attributes mapping passed to
`eventStream.publish`: if some value is neither a string, number, nor
array, the attribute encoder raises the "invalid attribute type"
error before any send occurs — zero `sns.publish` calls, no retry —
and `publish` catches it and returns it as the resolved value (the
call itself does not raise); if all values are strings, numbers, or
arrays, each attribute is encoded with the matching DataType
(`String`, `Number`, `String.Array`), arrays being JSON-serialized to
text for the `StringValue`, and exactly one send is issued carrying
those encoded attributes.
-/
theorem publish_attr_validation {ρ : Type}
    (send : PublishParams → Except String ρ) (topicArn : String)
    (message : JVal) (attributes : List (String × JVal)) :
    ((∃ kv ∈ attributes, (getAttrType kv.2).isOk = false) →
      (publish send topicArn message attributes).1 = 0 ∧
      ∃ v, (∃ k, (k, v) ∈ attributes) ∧ (getAttrType v).isOk = false ∧
        (publish send topicArn message attributes).2
          = Except.ok (.caught ("Invalid MessageAttribute type: "
              ++ typeofStr v ++ ". Valid types: String, Number, Array."))) ∧
    ((∀ kv ∈ attributes, (getAttrType kv.2).isOk = true) →
      parseAttributes attributes
        = .ok (attributes.map (fun kv => (kv.1, specAttrEncode kv.2))) ∧
      (publish send topicArn message attributes).1 = 1 ∧
      (publish send topicArn message attributes).2
        = Except.ok (match send ⟨jsonStringify message, topicArn,
              attributes.map (fun kv => (kv.1, specAttrEncode kv.2))⟩ with
            | .ok r => .receipt r
            | .error e => .caught e)) := by
  constructor
  · intro hbad
    obtain ⟨v, hv, hinv, herr⟩ := parseAttributes_error_of_invalid attributes hbad
    exact ⟨by simp [publish, herr], v, hv, hinv, by simp [publish, herr]⟩
  · intro hgood
    have hok := parseAttributes_ok_of_valid attributes hgood
    refine ⟨hok, ?_, ?_⟩ <;>
      · rw [publish, hok]
        simp only []
        cases hs : send ⟨jsonStringify message, topicArn,
          attributes.map (fun kv => (kv.1, specAttrEncode kv.2))⟩ <;> simp [hs]

theorem publish_attr_validation_witness :
    (∀ kv ∈ [("tags", JVal.arr [JVal.str "x", JVal.str "y"]),
        ("count", JVal.num 3)], (getAttrType kv.2).isOk = true) ∧
    parseAttributes
        [("tags", JVal.arr [JVal.str "x", JVal.str "y"]), ("count", JVal.num 3)]
      = .ok ([("tags", JVal.arr [JVal.str "x", JVal.str "y"]),
          ("count", JVal.num 3)].map (fun kv => (kv.1, specAttrEncode kv.2))) ∧
    parseAttributes
        [("tags", JVal.arr [JVal.str "x", JVal.str "y"]), ("count", JVal.num 3)]
      = .ok [("tags", ⟨"String.Array", "[\"x\",\"y\"]"⟩),
          ("count", ⟨"Number", "3"⟩)] ∧
    (publish (fun _ => Except.ok 0) "arn:topic" JVal.null
        [("tags", JVal.arr [JVal.str "x", JVal.str "y"]),
         ("count", JVal.num 3)]).1 = 1 := by
  have hvalid : ∀ kv ∈ [("tags", JVal.arr [JVal.str "x", JVal.str "y"]),
      ("count", JVal.num 3)], (getAttrType kv.2).isOk = true := by
    intro kv hkv
    rcases List.mem_cons.mp hkv with h | h
    · rw [h]; rfl
    · rcases List.mem_cons.mp h with h2 | h2
      · rw [h2]; rfl
      · exact absurd h2 (List.not_mem_nil kv)
  have happ := publish_attr_validation (fun _ => Except.ok 0) "arn:topic"
    JVal.null [("tags", JVal.arr [JVal.str "x", JVal.str "y"]),
      ("count", JVal.num 3)]
  exact ⟨hvalid, (happ.2 hvalid).1, rfl, (happ.2 hvalid).2.1⟩

/--
C7 counterexample: when parsing the inbound envelope throws,
`withEventStream` performs no publish at all — in the `catch` block
`message` is still `undefined`, so `message.context` throws a
TypeError that propagates — refuting "exactly one publish for every
invocation, including when parsing the envelope itself fails".
-/
theorem withEventStream_parse_failure_no_publish :
    withEventStream (fun _ => 0) "topic" "id-pass" "id-fail"
        (.error (.thrown "parse boom")) (fun _ _ => .ok .null)
      = ([], .error .typeError) := rfl

theorem wesPublishArgs_ok (topicArn : String) (m a payload : JVal)
    (newId status : String) (hacc : envelopeAccessOk m a = true) :
    ∃ ctx md trig ent entId op et,
      getProp m "context" = .ok ctx ∧
      getProp m "metadata" = .ok md ∧
      getProp md "eventType" = .ok et ∧
      getProp a "eventId" = .ok trig ∧
      getProp a "entity" = .ok ent ∧
      getProp a "entityId" = .ok entId ∧
      getProp a "operation" = .ok op ∧
      wesPublishArgs topicArn m a payload newId status
        = .ok ⟨topicArn,
            .obj [("context", ctx), ("metadata", md), ("payload", payload)],
            [("emitter", .str "tile-event-service"), ("eventId", .str newId),
             ("triggerEventId", trig), ("entity", ent), ("entityId", entId),
             ("operation", op), ("metadata", et), ("status", .str status)]⟩ := by
  rw [envelopeAccessOk] at hacc
  simp only [Bool.and_eq_true] at hacc
  obtain ⟨⟨⟨⟨⟨hctx, htrig⟩, hent⟩, hentId⟩, hop⟩, hmd⟩ := hacc
  obtain ⟨ctx, hctx⟩ := except_isOk_exists _ hctx
  obtain ⟨trig, htrig⟩ := except_isOk_exists _ htrig
  obtain ⟨ent, hent⟩ := except_isOk_exists _ hent
  obtain ⟨entId, hentId⟩ := except_isOk_exists _ hentId
  obtain ⟨op, hop⟩ := except_isOk_exists _ hop
  cases hmdv : getProp m "metadata" with
  | error e => rw [hmdv] at hmd; exact absurd hmd (by simp)
  | ok md =>
    rw [hmdv] at hmd
    obtain ⟨et, het⟩ := except_isOk_exists _ hmd
    refine ⟨ctx, md, trig, ent, entId, op, et,
      hctx, rfl, het, htrig, hent, hentId, hop, ?_⟩
    simp [wesPublishArgs, hctx, hmdv, het, htrig, hent, hentId, hop]

/--
C7 (amended): when the inbound envelope parses successfully and the
parsed message and attributes admit the property accesses the wrapper
performs (in particular `message.metadata` is not `undefined`),
`withEventStream` performs exactly one outbound publish: a `pass`
envelope carrying the handler's result when the handler succeeds, or
a `fail` envelope carrying the stringified error when it fails.  When
parsing (or one of those accesses) fails, no publish occurs and the
error propagates (see the counterexample).
-/
theorem withEventStream_single_publish {ρ : Type} (send : PublishCall → ρ)
    (topicArn idPass idFail : String) (m a : JVal)
    (handler : JVal → JVal → Except JsErr JVal)
    (hacc : envelopeAccessOk m a = true) :
    (withEventStream send topicArn idPass idFail (.ok (m, a)) handler).1.length
        = 1 ∧
    (∀ payload, handler m a = .ok payload →
      ∃ call,
        (withEventStream send topicArn idPass idFail (.ok (m, a)) handler).1
            = [call] ∧
        call.attrs.lookup "status" = some (.str "pass") ∧
        ∃ fs, call.message = JVal.obj fs ∧ fs.lookup "payload" = some payload) ∧
    (∀ err, handler m a = .error err →
      ∃ call,
        (withEventStream send topicArn idPass idFail (.ok (m, a)) handler).1
            = [call] ∧
        call.attrs.lookup "status" = some (.str "fail") ∧
        ∃ fs, call.message = JVal.obj fs ∧
          fs.lookup "payload"
            = some (JVal.obj [("error", JVal.str (jsErrString err))])) := by
  cases hh : handler m a with
  | ok payload =>
    obtain ⟨ctx, md, trig, ent, entId, op, et, hctx, hmd, het, htrig,
      hent, hentId, hop, hargs⟩ :=
      wesPublishArgs_ok topicArn m a payload idPass "pass" hacc
    have hwes : withEventStream send topicArn idPass idFail (.ok (m, a)) handler
        = ([⟨topicArn,
              .obj [("context", ctx), ("metadata", md), ("payload", payload)],
              [("emitter", .str "tile-event-service"), ("eventId", .str idPass),
               ("triggerEventId", trig), ("entity", ent), ("entityId", entId),
               ("operation", op), ("metadata", et), ("status", .str "pass")]⟩],
           .ok (send ⟨topicArn,
              .obj [("context", ctx), ("metadata", md), ("payload", payload)],
              [("emitter", .str "tile-event-service"), ("eventId", .str idPass),
               ("triggerEventId", trig), ("entity", ent), ("entityId", entId),
               ("operation", op), ("metadata", et), ("status", .str "pass")]⟩)) := by
      simp [withEventStream, hh, hargs]
    refine ⟨by rw [hwes]; rfl, ?_, ?_⟩
    · intro p hp
      obtain rfl : payload = p := Except.ok.inj hp
      refine ⟨⟨topicArn,
          .obj [("context", ctx), ("metadata", md), ("payload", payload)],
          [("emitter", .str "tile-event-service"), ("eventId", .str idPass),
           ("triggerEventId", trig), ("entity", ent), ("entityId", entId),
           ("operation", op), ("metadata", et), ("status", .str "pass")]⟩,
        by rw [hwes], rfl,
        [("context", ctx), ("metadata", md), ("payload", payload)], rfl, rfl⟩
    · intro err herr
      exact absurd herr (by simp)
  | error err =>
    obtain ⟨ctx, md, trig, ent, entId, op, et, hctx, hmd, het, htrig,
      hent, hentId, hop, hargs⟩ :=
      wesPublishArgs_ok topicArn m a
        (.obj [("error", .str (jsErrString err))]) idFail "fail" hacc
    have hwes : withEventStream send topicArn idPass idFail (.ok (m, a)) handler
        = ([⟨topicArn,
              .obj [("context", ctx), ("metadata", md),
                ("payload", .obj [("error", .str (jsErrString err))])],
              [("emitter", .str "tile-event-service"), ("eventId", .str idFail),
               ("triggerEventId", trig), ("entity", ent), ("entityId", entId),
               ("operation", op), ("metadata", et), ("status", .str "fail")]⟩],
           .ok (send ⟨topicArn,
              .obj [("context", ctx), ("metadata", md),
                ("payload", .obj [("error", .str (jsErrString err))])],
              [("emitter", .str "tile-event-service"), ("eventId", .str idFail),
               ("triggerEventId", trig), ("entity", ent), ("entityId", entId),
               ("operation", op), ("metadata", et), ("status", .str "fail")]⟩)) := by
      simp [withEventStream, hh, hargs]
    refine ⟨by rw [hwes]; rfl, ?_, ?_⟩
    · intro p hp
      exact absurd hp (by simp)
    · intro e2 he2
      obtain rfl : err = e2 := Except.error.inj he2
      refine ⟨⟨topicArn,
          .obj [("context", ctx), ("metadata", md),
            ("payload", .obj [("error", .str (jsErrString err))])],
          [("emitter", .str "tile-event-service"), ("eventId", .str idFail),
           ("triggerEventId", trig), ("entity", ent), ("entityId", entId),
           ("operation", op), ("metadata", et), ("status", .str "fail")]⟩,
        by rw [hwes], rfl,
        [("context", ctx), ("metadata", md),
          ("payload", .obj [("error", .str (jsErrString err))])], rfl, rfl⟩

theorem withEventStream_single_publish_witness :
    (envelopeAccessOk
        (JVal.obj [("context", .str "c"),
          ("metadata", .obj [("eventType", .str "E")])])
        (JVal.obj [("eventId", .str "e1"), ("entity", .str "product"),
          ("entityId", .str "p1"), ("operation", .str "U")]) = true) ∧
    ((withEventStream (fun _ => 0) "arn:bus" "new-id" "new-id2"
        (.ok (JVal.obj [("context", .str "c"),
            ("metadata", .obj [("eventType", .str "E")])],
          JVal.obj [("eventId", .str "e1"), ("entity", .str "product"),
            ("entityId", .str "p1"), ("operation", .str "U")]))
        (fun _ _ => .ok (.str "done"))).1.length = 1) := by
  have happ := withEventStream_single_publish (fun _ => 0) "arn:bus"
    "new-id" "new-id2"
    (JVal.obj [("context", .str "c"),
      ("metadata", .obj [("eventType", .str "E")])])
    (JVal.obj [("eventId", .str "e1"), ("entity", .str "product"),
      ("entityId", .str "p1"), ("operation", .str "U")])
    (fun _ _ => .ok (.str "done")) rfl
  exact ⟨rfl, happ.1⟩

/--
C8: for every status code, input, and result,
`formatHttpResponse(code, input, result)` returns `statusCode = code`
and `body` the JSON serialization of `{resp, input, result}` in that
field order, where `resp` is `"HTTP Resp: <code> - <status name>"`
for the known codes 200 (OK), 201 (Created), 400 (Bad Request),
500 (Internal Server Error) and `"HTTP Resp: <code>"` otherwise;
in particular `formatHttpResponse(200, {a:1}, {b:2})` produces exactly
the body `{"resp":"HTTP Resp: 200 - OK","input":{"a":1},"result":{"b":2}}`.
-/
theorem formatHttpResponse_spec :
    (∀ (code : Nat) (input result : JVal),
      formatHttpResponse code input result
        = (code, jsonStringify (JVal.obj
            [("resp", .str (if code = 200 then "HTTP Resp: 200 - OK"
                else if code = 201 then "HTTP Resp: 201 - Created"
                else if code = 400 then "HTTP Resp: 400 - Bad Request"
                else if code = 500 then "HTTP Resp: 500 - Internal Server Error"
                else "HTTP Resp: " ++ toString code)),
             ("input", input), ("result", result)]))) ∧
    formatHttpResponse 200 (JVal.obj [("a", .num 1)]) (JVal.obj [("b", .num 2)])
      = (200, "\x7b\"resp\":\"HTTP Resp: 200 - OK\",\"input\":\x7b\"a\":1\x7d,\"result\":\x7b\"b\":2\x7d\x7d") := by
  constructor
  · intro code input result
    by_cases h200 : code = 200
    · subst h200; rfl
    by_cases h201 : code = 201
    · subst h201; rfl
    by_cases h400 : code = 400
    · subst h400; rfl
    by_cases h500 : code = 500
    · subst h500; rfl
    simp [formatHttpResponse, getCodeStatus, h200, h201, h400, h500]
  · rfl

/-! ## Theorems about the query/scan executors -/

theorem fetchRecordsByQuery_fst (ε : Type)
    (dynamoQuery : List (String × JVal) → Except ε QueryResult)
    (q : List (String × JVal)) (paginate : Bool) :
    (fetchRecordsByQuery ε dynamoQuery q paginate).1
      = if itemExists (.obj q) "Limit" then q
        else q ++ [("Limit", .num dynamoDbQuerySafeBatchLimit)] := by
  rw [fetchRecordsByQuery]
  cases dynamoQuery (if itemExists (.obj q) "Limit" then q
      else q ++ [("Limit", .num dynamoDbQuerySafeBatchLimit)]) with
  | error e => rfl
  | ok r =>
    cases paginate <;> rcases hit : r.Items with _ | items <;>
      simp only [hit] <;> split_ifs <;> rfl

theorem performTableScan_fst (ε : Type)
    (dynamoScan : List (String × JVal) → Except ε QueryResult)
    (q : List (String × JVal)) (paginate : Bool) :
    (performTableScan ε dynamoScan q paginate).1
      = if itemExists (.obj q) "Limit" then q
        else q ++ [("Limit", .num dynamoDbQuerySafeBatchLimit)] := by
  rw [performTableScan]
  cases dynamoScan (if itemExists (.obj q) "Limit" then q
      else q ++ [("Limit", .num dynamoDbQuerySafeBatchLimit)]) with
  | error e => rfl
  | ok r =>
    cases paginate <;> rcases hit : r.Items with _ | items <;>
      simp only [hit] <;> split_ifs <;> rfl

theorem lookup_append_right {β : Type} (k : String) :
    ∀ q r : List (String × β), q.lookup k = none →
      (q ++ r).lookup k = r.lookup k := by
  intro q r
  induction q with
  | nil => intro _; rfl
  | cons p rest ih =>
    intro h
    obtain ⟨pk, pv⟩ := p
    cases hbeq : (k == pk) with
    | true => rw [List.lookup, hbeq] at h; exact absurd h (by simp)
    | false =>
      rw [List.lookup, hbeq] at h
      rw [List.cons_append, List.lookup, hbeq]
      exact ih h

theorem itemExists_false_lookup {q : List (String × JVal)} {k : String}
    (h : itemExists (.obj q) k = false) : q.lookup k = none := by
  simp only [itemExists] at h
  cases hl : q.lookup k with
  | none => rfl
  | some v => rw [hl] at h; exact absurd h (by simp)

theorem itemExists_of_mem {q : List (String × JVal)} {k : String} {v : JVal}
    (h : (k, v) ∈ q) : itemExists (.obj q) k = true := by
  simp only [itemExists]
  induction q with
  | nil => exact absurd h (List.not_mem_nil _)
  | cons p rest ih =>
    obtain ⟨pk, pv⟩ := p
    rcases List.mem_cons.mp h with h2 | h2
    · cases h2
      rw [List.lookup]
      simp
    · rw [List.lookup]
      cases hbeq : (k == pk) with
      | true => simp
      | false => exact ih h2

/--
C9: when the caller specifies no result-count limit (no own `Limit`
property on the request object), `fetchRecordsByQuery` and
`performTableScan` set `Limit` to the default ceiling
`dynamoDbQuerySafeBatchLimit = 1000` before issuing the request — a
store that reflects its request back confirms it receives the
defaulted object — while a caller-specified limit leaves the request
object entirely unchanged.
-/
theorem query_default_limit_spec (ε : Type)
    (dynamoQuery dynamoScan : List (String × JVal) → Except ε QueryResult)
    (q : List (String × JVal)) (paginate : Bool) :
    dynamoDbQuerySafeBatchLimit = 1000 ∧
    (itemExists (.obj q) "Limit" = false →
      (fetchRecordsByQuery ε dynamoQuery q paginate).1.lookup "Limit"
          = some (.num dynamoDbQuerySafeBatchLimit) ∧
      (performTableScan ε dynamoScan q paginate).1.lookup "Limit"
          = some (.num dynamoDbQuerySafeBatchLimit)) ∧
    (itemExists (.obj q) "Limit" = true →
      (fetchRecordsByQuery ε dynamoQuery q paginate).1 = q ∧
      (performTableScan ε dynamoScan q paginate).1 = q) ∧
    ((fetchRecordsByQuery (List (String × JVal)) (fun q2 => Except.error q2)
        q paginate).2
      = Except.error (if itemExists (.obj q) "Limit" then q
          else q ++ [("Limit", .num dynamoDbQuerySafeBatchLimit)])) ∧
    ((performTableScan (List (String × JVal)) (fun q2 => Except.error q2)
        q paginate).2
      = Except.error (if itemExists (.obj q) "Limit" then q
          else q ++ [("Limit", .num dynamoDbQuerySafeBatchLimit)])) := by
  refine ⟨rfl, ?_, ?_, rfl, rfl⟩
  · intro h
    have hnone := itemExists_false_lookup h
    rw [fetchRecordsByQuery_fst, performTableScan_fst, h]
    simp only [Bool.false_eq_true, if_false]
    rw [lookup_append_right _ _ _ hnone]
    exact ⟨rfl, rfl⟩
  · intro h
    rw [fetchRecordsByQuery_fst, performTableScan_fst, h]
    exact ⟨if_pos rfl, if_pos rfl⟩

theorem query_default_limit_spec_witness :
    (itemExists (.obj [("TableName", JVal.str "User")]) "Limit" = false) ∧
    ((fetchRecordsByQuery Unit (fun _ => Except.ok ⟨none, none⟩)
        [("TableName", JVal.str "User")] false).1.lookup "Limit"
      = some (.num dynamoDbQuerySafeBatchLimit)) ∧
    ((performTableScan Unit (fun _ => Except.ok ⟨none, none⟩)
        [("TableName", JVal.str "User")] false).1.lookup "Limit"
      = some (.num dynamoDbQuerySafeBatchLimit)) := by
  have h := query_default_limit_spec Unit (fun _ => Except.ok ⟨none, none⟩)
    (fun _ => Except.ok ⟨none, none⟩) [("TableName", JVal.str "User")] false
  exact ⟨rfl, (h.2.1 rfl).1, (h.2.1 rfl).2⟩

/--
C10: the executors mutate the caller-supplied request object in place
(modelled by returning the post-call object): when the object has no
own `Limit` property they append `Limit = 1000` to that very object —
observable by the caller afterwards — leaving every other field
unchanged; an own `Limit` property, even one whose value is
`undefined`, suppresses the default and the object is returned
untouched.
-/
theorem query_limit_mutation_spec (ε : Type)
    (dynamoQuery dynamoScan : List (String × JVal) → Except ε QueryResult)
    (q : List (String × JVal)) (paginate : Bool) :
    (itemExists (.obj q) "Limit" = false →
      (fetchRecordsByQuery ε dynamoQuery q paginate).1
          = q ++ [("Limit", .num dynamoDbQuerySafeBatchLimit)] ∧
      (performTableScan ε dynamoScan q paginate).1
          = q ++ [("Limit", .num dynamoDbQuerySafeBatchLimit)]) ∧
    (itemExists (.obj q) "Limit" = true →
      (fetchRecordsByQuery ε dynamoQuery q paginate).1 = q ∧
      (performTableScan ε dynamoScan q paginate).1 = q) ∧
    (("Limit", JVal.undefined) ∈ q →
      (fetchRecordsByQuery ε dynamoQuery q paginate).1 = q ∧
      (performTableScan ε dynamoScan q paginate).1 = q) := by
  refine ⟨?_, ?_, ?_⟩
  · intro h
    rw [fetchRecordsByQuery_fst, performTableScan_fst, h]
    simp
  · intro h
    rw [fetchRecordsByQuery_fst, performTableScan_fst, h]
    exact ⟨if_pos rfl, if_pos rfl⟩
  · intro h
    have hex := itemExists_of_mem h
    rw [fetchRecordsByQuery_fst, performTableScan_fst, hex]
    exact ⟨if_pos rfl, if_pos rfl⟩

theorem query_limit_mutation_spec_witness :
    (("Limit", JVal.undefined)
        ∈ [("TableName", JVal.str "T"), ("Limit", JVal.undefined)]) ∧
    ((fetchRecordsByQuery Unit (fun _ => Except.ok ⟨none, none⟩)
        [("TableName", JVal.str "T"), ("Limit", JVal.undefined)] true).1
      = [("TableName", JVal.str "T"), ("Limit", JVal.undefined)]) ∧
    ((performTableScan Unit (fun _ => Except.ok ⟨none, none⟩)
        [("TableName", JVal.str "T"), ("Limit", JVal.undefined)] true).1
      = [("TableName", JVal.str "T"), ("Limit", JVal.undefined)]) ∧
    (itemExists (.obj [("TableName", JVal.str "T")]) "Limit" = false) ∧
    ((fetchRecordsByQuery Unit (fun _ => Except.ok ⟨none, none⟩)
        [("TableName", JVal.str "T")] false).1
      = [("TableName", JVal.str "T"),
         ("Limit", .num dynamoDbQuerySafeBatchLimit)]) := by
  have h1 := query_limit_mutation_spec Unit (fun _ => Except.ok ⟨none, none⟩)
    (fun _ => Except.ok ⟨none, none⟩)
    [("TableName", JVal.str "T"), ("Limit", JVal.undefined)] true
  have h2 := query_limit_mutation_spec Unit (fun _ => Except.ok ⟨none, none⟩)
    (fun _ => Except.ok ⟨none, none⟩) [("TableName", JVal.str "T")] false
  have hmem : ("Limit", JVal.undefined)
      ∈ [("TableName", JVal.str "T"), ("Limit", JVal.undefined)] := by simp
  exact ⟨hmem, (h1.2.2 hmem).1, (h1.2.2 hmem).2, rfl, (h2.1 rfl).1⟩

end CompanyCore

